import Mathlib

set_option maxHeartbeats 1000000

/-!
Verification development for the FB2-to-Markdown conversion pipeline of the
fb2-reader plugin.  The TypeScript source is shallowly embedded: the parsed
XML document becomes an inductive tree (`XmlNode`), the JavaScript `Map` used
for footnotes and images becomes an insertion-ordered association list with
JS `Map.set` overwrite semantics, and the storage vault becomes a list of
existing paths threaded through the rendering functions.  Byte-level base64
decoding is not modelled; image materialization is tracked at the level of
the chosen path and the vault contents, which is what the properties below
are about.  Child-node sequences use a dedicated mutual list type
(`XmlNodes`, `SectionList`) so that every recursion is structural and every
definition evaluates by kernel reduction; `ofList`/`toList` mediate with
ordinary lists.
-/

namespace FB2

mutual

/-- A DOM node: a text node or an element with tag, attributes and children. -/
inductive XmlNode : Type where
  | text (s : String)
  | elem (tag : String) (attrs : List (String × String)) (children : XmlNodes)

/-- Sequence of DOM nodes (a mutual list, so recursion stays structural). -/
inductive XmlNodes : Type where
  | nil
  | cons (n : XmlNode) (ns : XmlNodes)

end

def XmlNodes.ofList : List XmlNode → XmlNodes
  | [] => .nil
  | n :: ns => .cons n (XmlNodes.ofList ns)

def XmlNodes.toList : XmlNodes → List XmlNode
  | .nil => []
  | .cons n ns => n :: XmlNodes.toList ns

/-- `Element.getAttribute`, returning `none` when the attribute is absent. -/
def getAttribute (name : String) : XmlNode → Option String
  | .text _ => none
  | .elem _ attrs _ => (attrs.find? (fun p => p.1 == name)).map (fun p => p.2)

/-- Tag of an element; the empty string for a text node (text nodes never
match any tag-based query below). -/
def tagName : XmlNode → String
  | .text _ => ""
  | .elem t _ _ => t

def isElem : XmlNode → Bool
  | .text _ => false
  | .elem _ _ _ => true

def childNodes : XmlNode → List XmlNode
  | .text _ => []
  | .elem _ _ c => c.toList

/-- The element children of a node, in document order. -/
def childElems (n : XmlNode) : List XmlNode := (childNodes n).filter isElem

/-- `textContent` of a node sequence: concatenation of all descendant text. -/
def textContentL : XmlNodes → String
  | .nil => ""
  | .cons (.text s) rest => s ++ textContentL rest
  | .cons (.elem _ _ c) rest => textContentL c ++ textContentL rest

/-- `Node.textContent`. -/
def textContent : XmlNode → String
  | .text s => s
  | .elem _ _ c => textContentL c

/-- All element nodes of a node sequence in pre-order (document order), roots
included.  This is the traversal order underlying `querySelectorAll`. -/
def descElemsL : XmlNodes → List XmlNode
  | .nil => []
  | .cons (.text _) rest => descElemsL rest
  | .cons (.elem t a c) rest => .elem t a c :: (descElemsL c ++ descElemsL rest)

/-- `el.querySelectorAll(...)` candidate set: the proper descendant elements
of `n`, in document order. -/
def descElems : XmlNode → List XmlNode
  | .text _ => []
  | .elem _ _ c => descElemsL c

/-- `document.querySelectorAll(...)` candidate set: every element of the
document (the root element included), in document order. -/
def docElems (root : XmlNode) : List XmlNode := descElemsL (.cons root .nil)

/-- Matches of a `parent > child` CSS selector over a node sequence: elements
satisfying `pred` whose parent element has tag `ptag`.  The `Option String`
argument carries the tag of the parent of the current sequence (`none` at the
document root). -/
def childOfTagL (ptag : String) (pred : XmlNode → Bool) :
    Option String → XmlNodes → List XmlNode
  | _, .nil => []
  | pt, .cons (.text _) rest => childOfTagL ptag pred pt rest
  | pt, .cons (.elem t a c) rest =>
      (if pt == some ptag && pred (.elem t a c) then [XmlNode.elem t a c] else []) ++
      (childOfTagL ptag pred (some t) c ++ childOfTagL ptag pred pt rest)

/-- Scoped `scope.querySelectorAll("ptag > ...")`. -/
def queryChildOfTag (ptag : String) (pred : XmlNode → Bool) : XmlNode → List XmlNode
  | .text _ => []
  | .elem t _ c => childOfTagL ptag pred (some t) c

/-- Document-level `doc.querySelectorAll("ptag > ...")`. -/
def docQueryChildOfTag (ptag : String) (pred : XmlNode → Bool) (root : XmlNode) :
    List XmlNode :=
  childOfTagL ptag pred none (.cons root .nil)

/-- JS `String.prototype.trim`, charwise so that it evaluates by kernel
reduction. -/
def jsTrim (s : String) : String :=
  String.mk (((s.data.dropWhile Char.isWhitespace).reverse.dropWhile
    Char.isWhitespace).reverse)

/-- JS `toLowerCase` (ASCII), charwise. -/
def jsToLower (s : String) : String := String.mk (s.data.map Char.toLower)

/-- JS `split(sep)` for a one-character separator. -/
def jsSplitAux (sep : Char) : List Char → List Char → List String
  | [], cur => [String.mk cur.reverse]
  | c :: cs, cur =>
    if c == sep then String.mk cur.reverse :: jsSplitAux sep cs []
    else jsSplitAux sep cs (c :: cur)

def jsSplit (sep : Char) (s : String) : List String := jsSplitAux sep s.data []

/-- JS `includes` for a one-character needle. -/
def jsIncludes (c : Char) (s : String) : Bool := s.data.contains c

/-- `.replace(/^#/, "")`. -/
def stripHash (s : String) : String :=
  match s.data with
  | '#' :: rest => String.mk rest
  | _ => s

/-- JS `startsWith("#")`. -/
def startsHash (s : String) : Bool :=
  match s.data with
  | '#' :: _ => true
  | _ => false

/-- JavaScript `a || b` on strings (empty string is falsy). -/
def jsOr (a b : String) : String := if a == "" then b else a

/-- `.replace(/\s+/g, " ")`: collapse every whitespace run to one space. -/
def collapseWsAux : List Char → Bool → List Char
  | [], _ => []
  | c :: cs, prevWs =>
    if c.isWhitespace then
      (if prevWs then [] else [' ']) ++ collapseWsAux cs true
    else
      c :: collapseWsAux cs false

def collapseWs (s : String) : String := String.mk (collapseWsAux s.data false)

/-! ### JavaScript `Map` as an insertion-ordered association list -/

/-- `Map.set`: overwrite in place when the key exists, else append. -/
def mapSet {α : Type} (m : List (String × α)) (k : String) (v : α) :
    List (String × α) :=
  if m.any (fun p => p.1 == k) then m.map (fun p => if p.1 == k then (k, v) else p)
  else m ++ [(k, v)]

/-- `Map.get`. -/
def mapGet {α : Type} (m : List (String × α)) (k : String) : Option α :=
  (m.find? (fun p => p.1 == k)).map (fun p => p.2)

/-- `new Map(pairs)`: equivalent to setting every pair in order. -/
def jsMapOfList {α : Type} (ps : List (String × α)) : List (String × α) :=
  ps.foldl (fun m p => mapSet m p.1 p.2) []

/-! ### Section tree (`SectionData`), from `parseSectionRecursive` -/

mutual

/-- `SectionData`: title, direct paragraph/image children, direct epigraphs,
nesting level and child sections. -/
inductive SectionData : Type where
  | mk (title : String) (paragraphs : List XmlNode) (epigraphs : List XmlNode)
       (level : Nat) (children : SectionList)

/-- Sequence of sections (mutual list keeping recursion structural). -/
inductive SectionList : Type where
  | nil
  | cons (s : SectionData) (ss : SectionList)

end

def SectionList.ofList : List SectionData → SectionList
  | [] => .nil
  | s :: ss => .cons s (SectionList.ofList ss)

def SectionList.toList : SectionList → List SectionData
  | .nil => []
  | .cons s ss => s :: SectionList.toList ss

def SectionData.title : SectionData → String
  | .mk t _ _ _ _ => t

def SectionData.paragraphs : SectionData → List XmlNode
  | .mk _ p _ _ _ => p

def SectionData.epigraphs : SectionData → List XmlNode
  | .mk _ _ e _ _ => e

def SectionData.level : SectionData → Nat
  | .mk _ _ _ l _ => l

def SectionData.children : SectionData → SectionList
  | .mk _ _ _ _ c => c

/-- First match of `:scope > title > p`. -/
def scopeTitleP (sectionEl : XmlNode) : Option XmlNode :=
  (((childElems sectionEl).filter (fun e => tagName e == "title")).flatMap
    (fun t => (childElems t).filter (fun e => tagName e == "p"))).head?

/-- Title resolution of `parseSectionRecursive`: text of a `p` inside a direct
`title`, else full text of the direct `title`, else empty — with JS `||`
falsiness, so an empty trimmed text also falls through. -/
def sectionTitle (sectionEl : XmlNode) : String :=
  jsOr ((scopeTitleP sectionEl).elim "" (fun p => jsTrim (textContent p)))
    (jsOr (((childElems sectionEl).find? (fun e => tagName e == "title")).elim ""
      (fun t => jsTrim (textContent t))) "")

/-- `:scope > p, :scope > image`. -/
def sectionParagraphs (sectionEl : XmlNode) : List XmlNode :=
  (childElems sectionEl).filter (fun e => tagName e == "p" || tagName e == "image")

/-- `:scope > epigraph`. -/
def sectionEpigraphs (sectionEl : XmlNode) : List XmlNode :=
  (childElems sectionEl).filter (fun e => tagName e == "epigraph")

mutual

/-- `parseSectionRecursive(sectionEl, level)`.  The source is only ever
applied to element nodes; the text-node case is an inert default. -/
def parseSectionRecursive : XmlNode → Nat → SectionData
  | .text _, level => .mk "" [] [] level .nil
  | .elem t a c, level =>
      .mk (sectionTitle (.elem t a c)) (sectionParagraphs (.elem t a c))
        (sectionEpigraphs (.elem t a c)) level (parseChildSections c (level + 1))

/-- Recursion over the `:scope > section` children. -/
def parseChildSections : XmlNodes → Nat → SectionList
  | .nil, _ => .nil
  | .cons n rest, level =>
      if tagName n == "section" then
        .cons (parseSectionRecursive n level) (parseChildSections rest level)
      else parseChildSections rest level

end

/-- `flattenSections(sections, result)`: push each section onto the
accumulator, then recurse into its children when non-empty. -/
def flattenSections : SectionList → List SectionData → List SectionData
  | .nil, result => result
  | .cons (.mk t p e l cs) rest, result =>
      let result1 := result ++ [SectionData.mk t p e l cs]
      let result2 :=
        if cs.toList.isEmpty then result1 else flattenSections cs result1
      flattenSections rest result2

/-- Total number of nodes of a section forest. -/
def countForest : SectionList → Nat
  | .nil => 0
  | .cons (.mk _ _ _ _ cs) rest => 1 + countForest cs + countForest rest

/-! ### Metadata, footnotes and images -/

/-- Book metadata from `parseMetaInfo`. -/
structure BookMetaInfo : Type where
  title : String
  authors : List String
  coverHref : String
deriving Repr, DecidableEq

/-- `parseMetaInfo(doc)`. -/
def parseMetaInfo (doc : XmlNode) : BookMetaInfo :=
  match (docQueryChildOfTag "description" (fun e => tagName e == "title-info") doc).head? with
  | none => ⟨"", [], ""⟩
  | some titleInfo =>
    let bookTitle := (((descElems titleInfo).find? (fun e => tagName e == "book-title")).map
      (fun e => jsTrim (textContent e))).getD ""
    let authors := (((descElems titleInfo).filter (fun e => tagName e == "author")).map
      (fun authorEl =>
        let first := ((descElems authorEl).find? (fun e => tagName e == "first-name")).map
          (fun e => jsTrim (textContent e))
        let last := ((descElems authorEl).find? (fun e => tagName e == "last-name")).map
          (fun e => jsTrim (textContent e))
        String.intercalate " " (([first, last].filterMap id).filter (fun s => s != "")))).filter
      (fun s => s != "")
    let coverHref := ((((queryChildOfTag "coverpage"
        (fun e => tagName e == "image" && (getAttribute "l:href" e).isSome) titleInfo).head?).bind
      (getAttribute "l:href")).map (fun h => jsToLower (stripHash h))).getD ""
    ⟨bookTitle, authors, coverHref⟩

/-- The `body[type="notes"]` partition, when present. -/
def notesBodyOf (doc : XmlNode) : Option XmlNode :=
  (docElems doc).find? (fun e => tagName e == "body" && getAttribute "type" e == some "notes")

/-- `notesBody.querySelectorAll("section[id]")`. -/
def noteSectionsOf (doc : XmlNode) : List XmlNode :=
  match notesBodyOf doc with
  | none => []
  | some nb => (descElems nb).filter
      (fun e => tagName e == "section" && (getAttribute "id" e).isSome)

/-- Text of one footnote section: the space-joined trimmed text content of
every descendant `p` (the source uses an unscoped `querySelectorAll("p")`). -/
def noteText (ns : XmlNode) : String :=
  String.intercalate " "
    (((descElems ns).filter (fun e => tagName e == "p")).map (fun p => jsTrim (textContent p)))

/-- `parseFootnotes(doc)`: one map entry per identified notes section;
a JS-falsy (absent or empty) id skips the section. -/
def parseFootnotes (doc : XmlNode) : List (String × String) :=
  (noteSectionsOf doc).foldl (fun m ns =>
    match getAttribute "id" ns with
    | none => m
    | some noteId => if noteId == "" then m else mapSet m noteId (noteText ns)) []

/-- One embedded binary block. -/
structure ImageRecord : Type where
  id : String
  contentType : String
  data : String
deriving Repr, DecidableEq

/-- `doc.querySelectorAll("binary")`. -/
def binariesOf (doc : XmlNode) : List XmlNode :=
  (docElems doc).filter (fun e => tagName e == "binary")

/-- The record built from one `binary` element. -/
def binaryRecord (binary : XmlNode) : ImageRecord :=
  ⟨jsToLower ((getAttribute "id" binary).getD ""),
   (getAttribute "content-type" binary).getD "image/jpeg",
   textContent binary⟩

/-- `extractImages(doc)`: the registry built by the `Map` constructor from
all binary blocks (later duplicate keys overwrite earlier ones). -/
def extractImages (doc : XmlNode) : List (String × ImageRecord) :=
  jsMapOfList ((binariesOf doc).map (fun b => ((binaryRecord b).id, binaryRecord b)))

/-! ### Inline paragraph formatter (`processFB2Paragraph`) -/

/-- Contribution of one child node of a paragraph. -/
def processChild (child : XmlNode) : String :=
  match child with
  | .text s => collapseWs s
  | .elem tag attrs c =>
    let text := jsTrim (textContent (.elem tag attrs c))
    if tag == "strong" || tag == "b" then "**" ++ text ++ "**"
    else if tag == "emphasis" || tag == "i" then "*" ++ text ++ "*"
    else if tag == "u" then "<u>" ++ text ++ "</u>"
    else if tag == "strikethrough" || tag == "s" then "~~" ++ text ++ "~~"
    else if tag == "sub" then "<sub>" ++ text ++ "</sub>"
    else if tag == "sup" then "<sup>" ++ text ++ "</sup>"
    else if tag == "a" then
      let href := match getAttribute "xlink:href" (.elem tag attrs c) with
        | some h => some h
        | none => getAttribute "href" (.elem tag attrs c)
      match href with
      | some h =>
        if startsHash h then "[^" ++ stripHash h ++ "]"
        else if h != "" then "[" ++ text ++ "](" ++ h ++ ")"
        else text
      | none => text
    else text

/-- `processFB2Paragraph(pEl)`: concatenate the children's contributions and
trim the final result.  The source lower-cases each child's tag before
matching; FB2 tags are already lower-case in this model, so tags are matched
directly. -/
def processFB2Paragraph (pEl : XmlNode) : String :=
  jsTrim ((childNodes pEl).foldl (fun md child => md ++ processChild child) "")

/-! ### Vault model and image materialization -/

/-- Conversion-relevant plugin settings. -/
structure PluginSettings : Type where
  imageFolderPath : String
  outputFolderPath : String
deriving Repr, DecidableEq

/-- `ensureFolderExists`: create the folder path when absent. -/
def ensureFolderExists (vault : List String) (path : String) : List String :=
  if vault.contains path then vault else vault ++ [path]

/-- `image.id.replace(/[^\w\d-_]/g, "_") || "image"`. -/
def imageBaseFileName (idStr : String) : String :=
  let s := String.mk (idStr.data.map
    (fun c => if c.isAlphanum || c == '-' || c == '_' then c else '_'))
  if s == "" then "image" else s

/-- The walk of the collision-avoidance `while` loop: try candidates
`mk 0, mk 1, ...` until one is not taken.  A finite fuel bounds the walk;
`vault.length + 1` candidates always suffice (proved below). -/
def firstFreeFrom (vault : List String) (mk : Nat → String) : Nat → Nat → String
  | 0, n => mk n
  | fuel + 1, n =>
    if vault.contains (mk n) then firstFreeFrom vault mk fuel (n + 1) else mk n

def firstFree (vault : List String) (mk : Nat → String) : String :=
  firstFreeFrom vault mk (vault.length + 1) 0

/-- Candidate path sequence of `saveImageToVault`:
`folder/base.ext`, `folder/base_1.ext`, `folder/base_2.ext`, ... -/
def imageCandidate (folderPath baseFileName extension : String) (n : Nat) : String :=
  folderPath ++ "/" ++ baseFileName ++ (if n == 0 then "" else "_" ++ Nat.repr n)
    ++ "." ++ extension

/-- `saveImageToVault(bookName, image)`: returns the path used and the vault
extended by the created folder (when new) and the created binary file. -/
def saveImageToVault (imageFolderPath bookName : String) (image : ImageRecord)
    (vault : List String) : String × List String :=
  let folderPath := imageFolderPath ++ "/" ++ bookName
  let vault1 := ensureFolderExists vault folderPath
  let extension := ((jsSplit '/' image.contentType)[1]?).getD "jpg"
  let baseFileName := imageBaseFileName image.id
  let filePath := firstFree vault1 (imageCandidate folderPath baseFileName extension)
  (filePath, vault1 ++ [filePath])

/-! ### Markdown renderer -/

/-- `"${s}"` with `"` escaped, from `addFrontMatter`. -/
def escapeQuotes (s : String) : String :=
  String.mk (s.data.flatMap (fun c => if c == '"' then ['\\', '"'] else [c]))

/-- `addFrontMatter(mdLines, meta)`. -/
def addFrontMatter (meta : BookMetaInfo) : List String :=
  ["---"]
  ++ (if meta.title != "" then ["title: \"" ++ escapeQuotes meta.title ++ "\""] else [])
  ++ (if meta.authors.length > 0 then
        ["authors: [" ++ String.intercalate ", "
          (meta.authors.map (fun a => "\"" ++ a ++ "\"")) ++ "]"]
      else [])
  ++ ["---\n"]

/-- Cover lookup of `addCover`: direct lookup, then — only when the first
lookup fails and the reference contains a dot — retry with the part before
the first dot. -/
def coverLookup (imageMap : List (String × ImageRecord)) (coverHref : String) :
    Option ImageRecord :=
  match mapGet imageMap coverHref with
  | some d => some d
  | none =>
    if jsIncludes '.' coverHref then mapGet imageMap ((jsSplit '.' coverHref).headD "")
    else none

/-- `addCover(mdLines, meta, imageMap, bookName)`: lines pushed and the
updated vault. -/
def addCover (meta : BookMetaInfo) (imageMap : List (String × ImageRecord))
    (imageFolderPath bookName : String) (vault : List String) :
    List String × List String :=
  if meta.coverHref == "" then ([], vault)
  else
    match coverLookup imageMap meta.coverHref with
    | some coverData =>
      let r := saveImageToVault imageFolderPath bookName coverData vault
      (["![[" ++ r.1 ++ "]]"], r.2)
    | none => ([], vault)

/-- `addTableOfContents(mdLines, sections)`. -/
def addTableOfContents (sections : List SectionData) : List String :=
  "# Contents" :: sections.filterMap (fun sec =>
    let title := jsTrim sec.title
    if title != "" then some ("- [[#" ++ title ++ "|" ++ title ++ "]]") else none)

/-- `"#".repeat(n)`. -/
def hashesStr (n : Nat) : String := String.mk (List.replicate n '#')

/-- Block-quote rendering of one epigraph: an unscoped `querySelectorAll("p")`
over the epigraph, one quoted line each, framed by bare quote markers. -/
def renderEpigraph (epigraphEl : XmlNode) : List String :=
  ">" :: (((descElems epigraphEl).filter (fun e => tagName e == "p")).map
    (fun p => "> " ++ processFB2Paragraph p)) ++ [">"]

/-- One iteration of the body-item loop of `addSections`: an image reference
is resolved via the registry (href lower-cased, leading `#` stripped) and
skipped when unresolved or empty; a `p` goes through the inline formatter;
anything else falls back to raw trimmed text. -/
def renderBodyItem (imageMap : List (String × ImageRecord))
    (imageFolderPath bookName : String) (node : XmlNode) (vault : List String) :
    List String × List String :=
  let tag := jsToLower (tagName node)
  if tag == "image" then
    match getAttribute "l:href" node with
    | none => ([], vault)
    | some rawHref =>
      let href := jsToLower (stripHash rawHref)
      if href == "" then ([], vault)
      else
        match mapGet imageMap href with
        | none => ([], vault)
        | some imgData =>
          if jsTrim imgData.data == "" then ([], vault)
          else
            let r := saveImageToVault imageFolderPath bookName imgData vault
            (["![[" ++ r.1 ++ "]]"], r.2)
  else if tag == "p" then ([processFB2Paragraph node], vault)
  else ([jsTrim (textContent node)], vault)

/-- The body-item loop of `addSections` over one section's `paragraphs`. -/
def renderBodyItems (imageMap : List (String × ImageRecord))
    (imageFolderPath bookName : String) (nodes : List XmlNode) (vault : List String) :
    List String × List String :=
  nodes.foldl (fun acc node =>
    let r := renderBodyItem imageMap imageFolderPath bookName node acc.2
    (acc.1 ++ r.1, r.2)) ([], vault)

/-- One section's contribution in `addSections`: heading (or bare blank line
for an empty title), epigraph block-quotes, then body items. -/
def renderSection (imageMap : List (String × ImageRecord))
    (imageFolderPath bookName : String) (sec : SectionData) (vault : List String) :
    List String × List String :=
  let headingLevel := min (sec.level + 1) 6
  let title := jsTrim sec.title
  let headLine := if title != "" then "\n" ++ hashesStr headingLevel ++ " " ++ title else "\n"
  let epiLines := (sec.epigraphs.map renderEpigraph).flatten
  let r := renderBodyItems imageMap imageFolderPath bookName sec.paragraphs vault
  (headLine :: epiLines ++ r.1, r.2)

/-- `addSections(mdLines, sections, imageMap, bookName)`. -/
def addSections (sections : List SectionData) (imageMap : List (String × ImageRecord))
    (imageFolderPath bookName : String) (vault : List String) :
    List String × List String :=
  sections.foldl (fun acc sec =>
    let r := renderSection imageMap imageFolderPath bookName sec acc.2
    (acc.1 ++ r.1, r.2)) ([], vault)

/-- The trailing footnotes step of `convertFB2`: a labeled heading plus one
reference-definition line per entry, only when the table is non-empty. -/
def renderFootnotes (footnotes : List (String × String)) : List String :=
  if footnotes.length > 0 then
    "\n## Footnotes\n" :: footnotes.map (fun e => "[^" ++ e.1 ++ "]: " ++ e.2)
  else []

/-! ### Output file naming -/

/-- The characters removed by `getFormattedMDFileName`. -/
def illegalPathChar (c : Char) : Bool :=
  c == '\\' || c == '/' || c == ':' || c == '*' || c == '?' || c == '"' ||
  c == '<' || c == '>' || c == '|'

/-- `getFormattedMDFileName(meta, fallbackName)`. -/
def getFormattedMDFileName (meta : BookMetaInfo) (fallbackName : String) : String :=
  let baseName :=
    if meta.title != "" || meta.authors.length > 0 then
      let authorsPart :=
        if meta.authors.length == 1 then meta.authors.headD ""
        else if meta.authors.length ≥ 2 then
          String.intercalate ", " (meta.authors.take 2) ++
            (if meta.authors.length > 2 then " et al." else "")
        else ""
      if authorsPart != "" then authorsPart ++ " – " ++ meta.title else meta.title
    else fallbackName
  String.mk (baseName.data.filter (fun c => !illegalPathChar c))

/-- Candidate path sequence of `getAvailableMdPath`:
`[folder/]base.md`, `[folder/]base_1.md`, ... -/
def mdCandidate (folder baseName : String) (n : Nat) : String :=
  (if folder != "" then folder ++ "/" else "") ++ baseName ++
    (if n == 0 then "" else "_" ++ Nat.repr n) ++ ".md"

/-- `getAvailableMdPath(baseName)`: the collision-free output path and the
vault extended by the created output folder (when configured and new). -/
def getAvailableMdPath (outputFolderPath baseName : String) (vault : List String) :
    String × List String :=
  let folder := jsTrim outputFolderPath
  let vault1 := if folder != "" then ensureFolderExists vault folder else vault
  (firstFree vault1 (mdCandidate folder baseName), vault1)

/-! ### The conversion pipeline (`convertFB2`) -/

/-- `doc.querySelector("parsererror")` is non-empty. -/
def hasParserError (doc : XmlNode) : Bool :=
  (docElems doc).any (fun e => tagName e == "parsererror")

/-- The non-notes `body` elements. -/
def mainBodiesOf (doc : XmlNode) : List XmlNode :=
  (docElems doc).filter (fun e => tagName e == "body" && getAttribute "type" e != some "notes")

/-- All root sections: every `:scope > section` of every main body, parsed at
level 1, in partition order. -/
def rootSectionsOf (doc : XmlNode) : SectionList :=
  SectionList.ofList ((mainBodiesOf doc).flatMap (fun bodyEl =>
    ((childElems bodyEl).filter (fun e => tagName e == "section")).map
      (fun sec => parseSectionRecursive sec 1)))

/-- Markdown lines of the successful conversion before the footnotes step,
together with the vault after materializations. -/
def preFootnoteMdLines (doc : XmlNode) (basename : String) (settings : PluginSettings)
    (vault : List String) : List String × List String :=
  let meta := parseMetaInfo doc
  let imageMap := extractImages doc
  let flatSections := flattenSections (rootSectionsOf doc) []
  let cover := addCover meta imageMap settings.imageFolderPath basename vault
  let secs := addSections flatSections imageMap settings.imageFolderPath basename cover.2
  (addFrontMatter meta ++ cover.1 ++ addTableOfContents flatSections ++ secs.1, secs.2)

/-- All markdown lines of the successful conversion. -/
def convertMdLines (doc : XmlNode) (basename : String) (settings : PluginSettings)
    (vault : List String) : List String × List String :=
  let pre := preFootnoteMdLines doc basename settings vault
  (pre.1 ++ renderFootnotes (parseFootnotes doc), pre.2)

/-- Outcome of one conversion: user-visible notices, the vault afterwards,
and the markdown artifact created (path and text), if any. -/
structure ConvertResult : Type where
  notices : List String
  vault : List String
  created : Option (String × String)
deriving Repr, DecidableEq

/-- `convertFB2(file)`: aborts with a notice on a parser error or when no
main body exists; otherwise renders, resolves a collision-free output path
from the metadata-derived name, and creates the markdown file. -/
def convertFB2 (doc : XmlNode) (basename : String) (settings : PluginSettings)
    (vault : List String) : ConvertResult :=
  if hasParserError doc then
    { notices := ["Error parsing FB2: Error: Invalid XML format"],
      vault := vault, created := none }
  else if (mainBodiesOf doc).isEmpty then
    { notices := ["No main <body> found in FB2."], vault := vault, created := none }
  else
    let lines := convertMdLines doc basename settings vault
    let formattedBaseName := getFormattedMDFileName (parseMetaInfo doc) basename
    let outPath := getAvailableMdPath settings.outputFolderPath formattedBaseName lines.2
    let finalText := String.intercalate "\n\n" lines.1
    { notices := ["FB2 converted: " ++ outPath.1],
      vault := outPath.2 ++ [outPath.1],
      created := some (outPath.1, finalText) }

/-! ### Decimal representation helpers, for the collision-suffix proofs -/

/-- Numeric value of a decimal digit character — a left inverse of
`Nat.digitChar` on 0..9. -/
def digitVal (c : Char) : Nat :=
  if c = '0' then 0 else if c = '1' then 1 else if c = '2' then 2
  else if c = '3' then 3 else if c = '4' then 4 else if c = '5' then 5
  else if c = '6' then 6 else if c = '7' then 7 else if c = '8' then 8
  else if c = '9' then 9 else 0

/-- Decimal digit characters of `n`, most significant first. -/
def digitsRec (n : Nat) : List Char :=
  if n < 10 then [Nat.digitChar n]
  else digitsRec (n / 10) ++ [Nat.digitChar (n % 10)]
decreasing_by exact Nat.div_lt_self (by omega) (by omega)

/-- Value of a decimal digit string. -/
def digitsVal (l : List Char) : Nat :=
  l.foldl (fun acc c => acc * 10 + digitVal c) 0

/-! ### Spec-side definition for the footnote-text refinement comparison -/

/-- Spec-side reading of the Footnote Resolver sentence, for comparison with
the source's `noteText`: the space-joined, trimmed text content of only the
section's direct paragraph children. -/
def specDirectNoteText (ns : XmlNode) : String :=
  String.intercalate " "
    (((childElems ns).filter (fun e => tagName e == "p")).map (fun p => jsTrim (textContent p)))

/-! ### Concrete documents used by witnesses and counterexamples -/

/-- A footnote section holding a direct paragraph "A" and a nested section
whose paragraph "B" is not a direct child. -/
def nestedNoteSection : XmlNode :=
  .elem "section" [("id", "n1")] (.ofList
    [.elem "p" [] (.ofList [.text "A"]),
     .elem "section" [] (.ofList [.elem "p" [] (.ofList [.text "B"])])])

/-- A document whose notes body consists of `nestedNoteSection`. -/
def nestedNoteDoc : XmlNode :=
  .elem "FictionBook" [] (.ofList
    [.elem "body" [] (.ofList [.elem "section" [] (.ofList [.elem "p" [] (.ofList [.text "x"])])]),
     .elem "body" [("type", "notes")] (.ofList [nestedNoteSection])])

end FB2

namespace FB2

/-! ### Association-map lemmas (JS `Map` semantics) -/

theorem mapGet_nil {α : Type} (k : String) : mapGet ([] : List (String × α)) k = none := rfl

theorem mapGet_cons {α : Type} (p : String × α) (m : List (String × α)) (k : String) :
    mapGet (p :: m) k = if p.1 = k then some p.2 else mapGet m k := by
  by_cases hp : p.1 = k
  · rw [mapGet, List.find?_cons_of_pos _ (by simpa using hp)]
    simp [hp]
  · rw [mapGet, List.find?_cons_of_neg _ (by simpa using hp), if_neg hp, mapGet]

theorem mapGet_append {α : Type} (m₁ m₂ : List (String × α)) (k : String) :
    mapGet (m₁ ++ m₂) k =
      match mapGet m₁ k with
      | some v => some v
      | none => mapGet m₂ k := by
  induction m₁ with
  | nil => simp [mapGet_nil]
  | cons p m₁ ih =>
    rw [List.cons_append, mapGet_cons, mapGet_cons]
    by_cases hp : p.1 = k
    · simp [hp]
    · simp [hp, ih]

theorem mapGet_eq_none_of_any_false {α : Type} (m : List (String × α)) (k : String)
    (h : m.any (fun p => p.1 == k) = false) : mapGet m k = none := by
  induction m with
  | nil => rfl
  | cons p m ih =>
    simp only [List.any_cons, Bool.or_eq_false_iff] at h
    rw [mapGet_cons, if_neg (by simpa using h.1)]
    exact ih h.2

theorem mapGet_overwriteMap_self {α : Type} (m : List (String × α)) (k : String) (v : α) :
    mapGet (m.map (fun p => if p.1 == k then (k, v) else p)) k =
      if m.any (fun p => p.1 == k) then some v else none := by
  induction m with
  | nil => rfl
  | cons p m ih =>
    rw [List.map_cons]
    by_cases hp : p.1 = k
    · have hhead : (if p.1 == k then (k, v) else p) = (k, v) := by
        rw [if_pos (by simpa using hp)]
      rw [hhead, mapGet_cons, if_pos rfl, List.any_cons]
      have hb : (p.1 == k) = true := by simpa using hp
      rw [hb, Bool.true_or, if_pos rfl]
    · have hhead : (if p.1 == k then (k, v) else p) = p := by
        rw [if_neg (by simpa using hp)]
      rw [hhead, mapGet_cons, if_neg hp, ih, List.any_cons]
      have hb : (p.1 == k) = false := by simpa using hp
      rw [hb, Bool.false_or]

theorem mapGet_overwriteMap_ne {α : Type} (m : List (String × α)) (k k' : String) (v : α)
    (h : k' ≠ k) :
    mapGet (m.map (fun p => if p.1 == k then (k, v) else p)) k' = mapGet m k' := by
  induction m with
  | nil => rfl
  | cons p m ih =>
    rw [List.map_cons]
    by_cases hp : p.1 = k
    · have hhead : (if p.1 == k then (k, v) else p) = (k, v) := by
        rw [if_pos (by simpa using hp)]
      rw [hhead, mapGet_cons, if_neg (fun hc => h hc.symm), mapGet_cons,
        if_neg (fun hc => h (hp ▸ hc).symm), ih]
    · have hhead : (if p.1 == k then (k, v) else p) = p := by
        rw [if_neg (by simpa using hp)]
      rw [hhead, mapGet_cons, mapGet_cons, ih]

theorem mapGet_mapSet_self {α : Type} (m : List (String × α)) (k : String) (v : α) :
    mapGet (mapSet m k v) k = some v := by
  unfold mapSet
  by_cases h : m.any (fun p => p.1 == k)
  · rw [if_pos h, mapGet_overwriteMap_self, if_pos h]
  · rw [if_neg h, mapGet_append,
      mapGet_eq_none_of_any_false m k (Bool.eq_false_iff.mpr h)]
    rw [mapGet_cons]
    simp

theorem mapGet_mapSet_ne {α : Type} (m : List (String × α)) (k k' : String) (v : α)
    (h : k' ≠ k) : mapGet (mapSet m k v) k' = mapGet m k' := by
  unfold mapSet
  by_cases hany : m.any (fun p => p.1 == k)
  · rw [if_pos hany, mapGet_overwriteMap_ne m k k' v h]
  · rw [if_neg hany, mapGet_append]
    have h1 : mapGet [(k, v)] k' = none := by
      rw [mapGet_cons, if_neg (fun hc => h hc.symm)]
      rfl
    rw [h1]
    cases mapGet m k' <;> rfl

/-- Looking a key up after folding `Map.set` over a pair list: the value of
the last pair carrying the key, else the lookup in the initial map. -/
theorem mapGet_foldl_mapSet {α : Type} (ps : List (String × α)) (m : List (String × α))
    (k : String) :
    mapGet (ps.foldl (fun m p => mapSet m p.1 p.2) m) k =
      match ps.reverse.find? (fun p => p.1 == k) with
      | some p => some p.2
      | none => mapGet m k := by
  induction ps generalizing m with
  | nil => simp
  | cons p ps ih =>
    simp only [List.foldl_cons, List.reverse_cons, List.find?_append]
    rw [ih]
    cases hfind : ps.reverse.find? (fun p => p.1 == k) with
    | some e => simp [hfind]
    | none =>
      simp only [hfind, Option.none_or]
      by_cases hp : (p.1 == k) = true
      · have h1 : List.find? (fun q => q.1 == k) [p] = some p := by
          simp only [List.find?, hp]
        rw [h1]
        show mapGet (mapSet m p.1 p.2) k = some p.2
        have hk : p.1 = k := by simpa using hp
        rw [← hk]
        exact mapGet_mapSet_self m p.1 p.2
      · have hb : (p.1 == k) = false := Bool.eq_false_iff.mpr hp
        have h1 : List.find? (fun q => q.1 == k) [p] = none := by
          simp only [List.find?, hb]
        rw [h1]
        show mapGet (mapSet m p.1 p.2) k = mapGet m k
        have hne : k ≠ p.1 := fun hc => hp (by simpa using hc.symm)
        exact mapGet_mapSet_ne _ _ _ _ hne

theorem mapGet_jsMapOfList {α : Type} (ps : List (String × α)) (k : String) :
    mapGet (jsMapOfList ps) k =
      (ps.reverse.find? (fun p => p.1 == k)).map (fun p => p.2) := by
  rw [jsMapOfList, mapGet_foldl_mapSet]
  cases ps.reverse.find? (fun p => p.1 == k) <;> simp [mapGet_nil]

theorem keys_mapSet {α : Type} (m : List (String × α)) (k : String) (v : α) :
    (mapSet m k v).map (fun p => p.1) =
      if m.any (fun p => p.1 == k) then m.map (fun p => p.1)
      else m.map (fun p => p.1) ++ [k] := by
  unfold mapSet
  by_cases hany : m.any (fun p => p.1 == k)
  · simp only [hany, if_true, List.map_map]
    apply List.map_congr_left
    intro p _
    by_cases hp : p.1 == k
    · have : p.1 = k := by simpa using hp
      simp [Function.comp, hp, this]
    · simp [Function.comp, hp]
  · simp [hany]

theorem keys_foldl_mapSet_nodup {α : Type} (ps : List (String × α))
    (m : List (String × α)) (h : (m.map (fun p => p.1)).Nodup) :
    ((ps.foldl (fun m p => mapSet m p.1 p.2) m).map (fun p => p.1)).Nodup := by
  induction ps generalizing m with
  | nil => exact h
  | cons p ps ih =>
    simp only [List.foldl_cons]
    apply ih
    rw [keys_mapSet]
    by_cases hany : (m.any fun q => q.1 == p.1) = true
    · rw [if_pos hany]
      exact h
    · have hnot : p.1 ∉ m.map (fun q => q.1) := by
        intro hmem
        rcases List.mem_map.mp hmem with ⟨q, hq, hq1⟩
        exact hany (List.any_eq_true.mpr ⟨q, hq, by simpa using hq1⟩)
      rw [if_neg hany, List.nodup_append]
      refine ⟨h, List.nodup_singleton _, ?_⟩
      intro x hx hx1
      simp only [List.mem_singleton] at hx1
      subst hx1
      exact hnot hx

theorem keys_jsMapOfList_nodup {α : Type} (ps : List (String × α)) :
    ((jsMapOfList ps).map (fun p => p.1)).Nodup :=
  keys_foldl_mapSet_nodup ps [] (by simp)

/-! ### C10: duplicate binary identifiers -/

/-- C10: when binary blocks share a lower-cased identifier, the Image
Registry maps that identifier to the record of the block appearing last in
document order, the registry keys are free of duplicates, and construction
is total (no error is raised). -/
theorem extractImages_last_wins (doc : XmlNode) (k : String) :
    mapGet (extractImages doc) k =
      ((binariesOf doc).reverse.find? (fun b => (binaryRecord b).id == k)).map binaryRecord
    ∧ ((extractImages doc).map (fun p => p.1)).Nodup := by
  constructor
  · rw [extractImages, mapGet_jsMapOfList, ← List.map_reverse, List.find?_map,
      Option.map_map]
    rfl
  · exact keys_jsMapOfList_nodup _

/-! ### C2: footnote entry text -/

/-- The per-section step of `parseFootnotes` as a filterMap into key/value
pairs followed by plain `Map.set` folding. -/
theorem parseFootnotes_as_entry_fold (ss : List XmlNode) (m : List (String × String)) :
    ss.foldl (fun m ns =>
      match getAttribute "id" ns with
      | none => m
      | some noteId => if noteId == "" then m else mapSet m noteId (noteText ns)) m =
    (ss.filterMap (fun ns =>
      match getAttribute "id" ns with
      | none => none
      | some i => if i == "" then none else some (i, noteText ns))).foldl
      (fun m p => mapSet m p.1 p.2) m := by
  induction ss generalizing m with
  | nil => rfl
  | cons ns ss ih =>
    simp only [List.foldl_cons, List.filterMap_cons]
    cases h : getAttribute "id" ns with
    | none => simp only [h, ih]
    | some i =>
      by_cases hi : (i == "") = true
      · simp only [h, hi, if_true, ih]
      · simp only [h, Bool.eq_false_iff.mpr hi, Bool.false_eq_true, if_false,
          List.foldl_cons, ih]

/-- C2 (amended): a footnote entry's text is the space-joined, trimmed text
content of ALL descendant paragraph elements of its notes section — nested
paragraphs included — and for duplicate identifiers the last section in
document order supplies the entry. -/
theorem parseFootnotes_entry_text (doc : XmlNode) (k : String) :
    mapGet (parseFootnotes doc) k =
      (((noteSectionsOf doc).filterMap (fun ns =>
          match getAttribute "id" ns with
          | none => none
          | some i => if i == "" then none else some (i, noteText ns))).reverse.find?
        (fun e => e.1 == k)).map (fun e => e.2) := by
  rw [parseFootnotes, parseFootnotes_as_entry_fold]
  exact mapGet_jsMapOfList _ k

/-- C2 counterexample: in `nestedNoteDoc` the identified notes section has
direct-paragraph text "A", but the computed entry is "A B" — the paragraph
nested inside an inner section does contribute, contradicting the claim that
only direct paragraph children are read. -/
theorem parseFootnotes_direct_children_refuted :
    specDirectNoteText nestedNoteSection = "A" ∧
    mapGet (parseFootnotes nestedNoteDoc) "n1" = some "A B" ∧
    mapGet (parseFootnotes nestedNoteDoc) "n1" ≠ some (specDirectNoteText nestedNoteSection) := by
  decide

/-! ### C1: the Section Flattener -/

/-- The accumulator of `flattenSections` is only appended to. -/
theorem flattenSections_acc (ss : SectionList) (r : List SectionData) :
    ∀ a : List SectionData, flattenSections ss (a ++ r) = a ++ flattenSections ss r := by
  induction ss, r using flattenSections.induct with
  | case1 r => intro a; rfl
  | case2 t p e l cs rest result r1 r2 ih1 ih2 =>
    intro a
    have hr1 : r1 = result ++ [SectionData.mk t p e l cs] := rfl
    have hr2 : r2 = if cs.toList.isEmpty = true then r1 else flattenSections cs r1 := rfl
    simp only [hr2, hr1] at ih1 ih2
    show flattenSections (.cons (.mk t p e l cs) rest) (a ++ result) =
      a ++ flattenSections (.cons (.mk t p e l cs) rest) result
    simp only [flattenSections]
    by_cases hemp : cs.toList.isEmpty = true
    · simp only [if_pos hemp] at ih2 ⊢
      rw [List.append_assoc]
      exact ih2 a
    · simp only [if_neg hemp] at ih2 ⊢
      rw [List.append_assoc, ih1 a]
      exact ih2 a

/-- `flattenSections` computes the pre-order linearization: the accumulator,
then — for each root in input order — the root itself immediately followed by
the contiguous flattened block of its children. -/
theorem flattenSections_eq_preorder (ss : SectionList) (r : List SectionData) :
    flattenSections ss r =
      r ++ (ss.toList.map (fun t => t :: flattenSections t.children [])).flatten := by
  induction ss, r using flattenSections.induct with
  | case1 r => simp [flattenSections, SectionList.toList]
  | case2 t p e l cs rest result r1 r2 ih1 ih2 =>
    have hr1 : r1 = result ++ [SectionData.mk t p e l cs] := rfl
    have hr2 : r2 = if cs.toList.isEmpty = true then r1 else flattenSections cs r1 := rfl
    simp only [hr2, hr1] at ih1 ih2
    show flattenSections (.cons (.mk t p e l cs) rest) result =
      result ++ (((SectionList.cons (.mk t p e l cs) rest)).toList.map
        (fun t => t :: flattenSections t.children [])).flatten
    have hacc : flattenSections cs (result ++ [SectionData.mk t p e l cs]) =
        (result ++ [SectionData.mk t p e l cs]) ++ flattenSections cs [] := by
      simpa using flattenSections_acc cs [] (result ++ [SectionData.mk t p e l cs])
    have hcs : flattenSections cs [] =
        (cs.toList.map (fun t => t :: flattenSections t.children [])).flatten := by
      have h5 : (result ++ [SectionData.mk t p e l cs]) ++ flattenSections cs [] =
          (result ++ [SectionData.mk t p e l cs]) ++
            (cs.toList.map (fun t => t :: flattenSections t.children [])).flatten := by
        rw [← hacc]
        exact ih1
      exact List.append_cancel_left h5
    simp only [flattenSections]
    by_cases hemp : cs.toList.isEmpty = true
    · have hnil : cs = .nil := by
        cases cs with
        | nil => rfl
        | cons c cs' => simp [SectionList.toList] at hemp
      subst hnil
      simp only [if_pos hemp] at ih2
      rw [if_pos hemp, ih2]
      simp [SectionList.toList, SectionData.children, flattenSections]
    · simp only [if_neg hemp] at ih2
      rw [if_neg hemp, ih2, hacc]
      simp [SectionList.toList, SectionData.children, List.append_assoc]

/-- The flattened sequence contains every node exactly once. -/
theorem flattenSections_length (ss : SectionList) (r : List SectionData) :
    (flattenSections ss r).length = r.length + countForest ss := by
  induction ss, r using flattenSections.induct with
  | case1 r => simp [flattenSections, countForest]
  | case2 t p e l cs rest result r1 r2 ih1 ih2 =>
    have hr1 : r1 = result ++ [SectionData.mk t p e l cs] := rfl
    have hr2 : r2 = if cs.toList.isEmpty = true then r1 else flattenSections cs r1 := rfl
    simp only [hr2, hr1] at ih1 ih2
    show (flattenSections (.cons (.mk t p e l cs) rest) result).length =
      result.length + countForest (.cons (.mk t p e l cs) rest)
    simp only [flattenSections]
    by_cases hemp : cs.toList.isEmpty = true
    · have hnil : cs = .nil := by
        cases cs with
        | nil => rfl
        | cons c cs' => simp [SectionList.toList] at hemp
      subst hnil
      simp only [if_pos hemp] at ih2
      rw [if_pos hemp, ih2]
      simp [countForest]
      omega
    · simp only [if_neg hemp] at ih2
      rw [if_neg hemp, ih2, ih1]
      simp [countForest]
      omega

/-- C1: the Section Flattener's output has exactly one entry per node of the
input forest, and it is the pre-order linearization — every node comes
before its descendants, a node's descendants form a contiguous block
immediately after it, and sibling order is preserved. -/
theorem flattenSections_preorder_linearization (ss : SectionList) :
    (flattenSections ss []).length = countForest ss ∧
    flattenSections ss [] =
      (ss.toList.map (fun t => t :: flattenSections t.children [])).flatten := by
  constructor
  · simpa using flattenSections_length ss []
  · simpa using flattenSections_eq_preorder ss []

/-! ### Renderer structure lemmas -/

/-- The line accumulator of the `addSections` fold only grows by appending. -/
theorem addSections_fold_acc (im : List (String × ImageRecord)) (fp bn : String)
    (secs : List SectionData) :
    ∀ (a : List String) (v : List String),
      secs.foldl (fun acc sec =>
        let r := renderSection im fp bn sec acc.2
        (acc.1 ++ r.1, r.2)) (a, v) =
      (a ++ (addSections secs im fp bn v).1, (addSections secs im fp bn v).2) := by
  induction secs with
  | nil => intro a v; simp [addSections]
  | cons sec secs ih =>
    intro a v
    rw [addSections, List.foldl_cons, List.foldl_cons]
    simp only []
    rw [ih (a ++ (renderSection im fp bn sec v).1) (renderSection im fp bn sec v).2,
      ih ([] ++ (renderSection im fp bn sec v).1) (renderSection im fp bn sec v).2]
    simp [List.append_assoc]

/-- `addSections` on a non-empty list: the head section's lines first, then
the rest rendered against the updated vault. -/
theorem addSections_cons (im : List (String × ImageRecord)) (fp bn : String)
    (sec : SectionData) (rest : List SectionData) (vault : List String) :
    addSections (sec :: rest) im fp bn vault =
      ((renderSection im fp bn sec vault).1 ++
        (addSections rest im fp bn (renderSection im fp bn sec vault).2).1,
       (addSections rest im fp bn (renderSection im fp bn sec vault).2).2) := by
  rw [addSections, List.foldl_cons]
  simp only []
  rw [addSections_fold_acc im fp bn rest ([] ++ (renderSection im fp bn sec vault).1)
    (renderSection im fp bn sec vault).2]
  simp

/-- `filterMap` of a guarded `some` is `map` after `filter`. -/
theorem filterMap_guard {α β : Type} (l : List α) (p : α → Bool) (f : α → β) :
    l.filterMap (fun s => if p s then some (f s) else none) = (l.filter p).map f := by
  induction l with
  | nil => rfl
  | cons x l ih =>
    by_cases hx : p x = true
    · simp [List.filterMap_cons, List.filter_cons, hx, ih]
    · simp [List.filterMap_cons, List.filter_cons, Bool.eq_false_iff.mpr hx, ih]

/-! ### C5: heading levels -/

/-- C5: a flattened section with a non-empty trimmed title is rendered with a
heading line of level exactly `min(depth + 1, 6)`: depth 1 yields a level-2
heading and the level never exceeds 6. -/
theorem headingLevel_clamped (im : List (String × ImageRecord)) (fp bn : String)
    (sec : SectionData) (rest : List SectionData) (vault : List String)
    (h : jsTrim sec.title ≠ "") :
    (addSections (sec :: rest) im fp bn vault).1.head? =
      some ("\n" ++ hashesStr (min (sec.level + 1) 6) ++ " " ++ jsTrim sec.title)
    ∧ min (sec.level + 1) 6 ≤ 6
    ∧ (sec.level = 1 → min (sec.level + 1) 6 = 2) := by
  refine ⟨?_, Nat.min_le_right _ _, fun h1 => by rw [h1]; decide⟩
  have hb : (jsTrim sec.title != "") = true := by simpa using h
  rw [addSections_cons]
  rw [renderSection]
  simp only [hb, if_true]
  rfl

/-- C5 witness: a depth-7 section titled " T " heads its rendering with a
clamped level-6 heading. -/
theorem headingLevel_clamped_witness :
    (addSections [SectionData.mk " T " [] [] 7 .nil] [] "f" "b" []).1.head? =
      some ("\n" ++ hashesStr (min (7 + 1) 6) ++ " " ++ jsTrim " T ")
    ∧ min (7 + 1) 6 ≤ 6
    ∧ ((7 : Nat) = 1 → min (7 + 1) 6 = 2) :=
  headingLevel_clamped [] "f" "b" (SectionData.mk " T " [] [] 7 .nil) [] [] (by decide)

/-! ### C6: empty-title sections -/

/-- C6: the table of contents has exactly one self-link entry per flattened
section with a non-empty trimmed title, in order, and none for empty titles;
an empty-title section is still rendered — a bare blank separator line
instead of a heading, followed by its epigraphs and body items — and its
lines appear in flattened position within `addSections`. -/
theorem emptyTitle_skipped_in_toc_rendered_in_body (sections : List SectionData)
    (im : List (String × ImageRecord)) (fp bn : String) (vault : List String)
    (sec : SectionData) (h : jsTrim sec.title = "") :
    addTableOfContents sections =
      "# Contents" :: ((sections.filter (fun s => jsTrim s.title != "")).map
        (fun s => "- [[#" ++ jsTrim s.title ++ "|" ++ jsTrim s.title ++ "]]"))
    ∧ (renderSection im fp bn sec vault).1 =
        "\n" :: ((sec.epigraphs.map renderEpigraph).flatten ++
          (renderBodyItems im fp bn sec.paragraphs vault).1)
    ∧ ∀ rest : List SectionData, (addSections (sec :: rest) im fp bn vault).1 =
        (renderSection im fp bn sec vault).1 ++
          (addSections rest im fp bn (renderSection im fp bn sec vault).2).1 := by
  refine ⟨?_, ?_, ?_⟩
  · rw [addTableOfContents]
    rw [filterMap_guard sections (fun s => jsTrim s.title != "")
      (fun s => "- [[#" ++ jsTrim s.title ++ "|" ++ jsTrim s.title ++ "]]")]
  · rw [renderSection]
    simp only [h]
    rfl
  · intro rest
    rw [addSections_cons]

/-- C6 witness: with one empty-title and one titled section, the TOC lists
only the titled one while the empty-title section's paragraph line is still
rendered after its blank separator. -/
theorem emptyTitle_skipped_in_toc_rendered_in_body_witness :
    (addTableOfContents [SectionData.mk "  " [] [] 1 .nil, SectionData.mk "T" [] [] 1 .nil] =
      "# Contents" :: (([SectionData.mk "  " [] [] 1 .nil,
        SectionData.mk "T" [] [] 1 .nil].filter (fun s => jsTrim s.title != "")).map
        (fun s => "- [[#" ++ jsTrim s.title ++ "|" ++ jsTrim s.title ++ "]]"))
    ∧ (renderSection [] "f" "b" (SectionData.mk "  "
        [XmlNode.elem "p" [] (.ofList [.text "body text"])] [] 1 .nil) []).1 =
        "\n" :: (((SectionData.mk "  " [XmlNode.elem "p" [] (.ofList [.text "body text"])]
            [] 1 .nil).epigraphs.map renderEpigraph).flatten ++
          (renderBodyItems [] "f" "b" (SectionData.mk "  "
            [XmlNode.elem "p" [] (.ofList [.text "body text"])] [] 1 .nil).paragraphs []).1)
    ∧ ∀ rest : List SectionData, (addSections ((SectionData.mk "  "
        [XmlNode.elem "p" [] (.ofList [.text "body text"])] [] 1 .nil) :: rest) [] "f" "b" []).1 =
        (renderSection [] "f" "b" (SectionData.mk "  "
          [XmlNode.elem "p" [] (.ofList [.text "body text"])] [] 1 .nil) []).1 ++
          (addSections rest [] "f" "b" (renderSection [] "f" "b" (SectionData.mk "  "
            [XmlNode.elem "p" [] (.ofList [.text "body text"])] [] 1 .nil) []).2).1) :=
  emptyTitle_skipped_in_toc_rendered_in_body
    [SectionData.mk "  " [] [] 1 .nil, SectionData.mk "T" [] [] 1 .nil]
    [] "f" "b" []
    (SectionData.mk "  " [XmlNode.elem "p" [] (.ofList [.text "body text"])] [] 1 .nil)
    (by decide)

/-! ### C3: image lookup normalization -/

/-- C3 (amended): image lookup is case-insensitive for the cover and for body
references alike — both lower-case the reference and strip a leading `#`
before the registry lookup — but dot-suffix tolerance holds only for the
cover: `addCover` retries with the part before the first dot when the direct
lookup misses, while the body-image path performs a single direct lookup. -/
theorem imageLookup_normalization (m : List (String × ImageRecord)) (rec : ImageRecord)
    (fp bn : String) (v : List String) (raw cref k : String) :
    (mapGet m (jsToLower (stripHash raw)) = some rec →
      coverLookup m (jsToLower (stripHash raw)) = some rec)
    ∧ (mapGet m cref = none → jsIncludes '.' cref = true →
        mapGet m ((jsSplit '.' cref).headD "") = some rec →
        coverLookup m cref = some rec)
    ∧ (∀ (attrs : List (String × String)) (c : XmlNodes),
        getAttribute "l:href" (XmlNode.elem "image" attrs c) = some raw →
        jsToLower (stripHash raw) = k → k ≠ "" →
        mapGet m k = some rec → jsTrim rec.data ≠ "" →
        (renderBodyItem m fp bn (XmlNode.elem "image" attrs c) v).1 =
          ["![[" ++ (saveImageToVault fp bn rec v).1 ++ "]]"]) := by
  refine ⟨?_, ?_, ?_⟩
  · intro h
    rw [coverLookup, h]
  · intro h1 h2 h3
    rw [coverLookup, h1, if_pos h2, h3]
  · intro attrs c hattr hnorm hk hget hdata
    have hbdata : (jsTrim rec.data == "") = false := by
      simpa using hdata
    rw [renderBodyItem]
    have htag : (jsToLower (tagName (XmlNode.elem "image" attrs c)) == "image") = true := rfl
    simp only [htag, if_true, hattr, hnorm]
    have hkb : (k == "") = false := by simpa using hk
    simp only [hkb, Bool.false_eq_true, if_false, hget, hbdata]

/-- C3 witness: the registry entry keyed "img0001" is found by the cover
reference "#IMG0001" after normalization, by a cover reference
"img0001.jpg" through the dot-suffix retry, and a body reference
"#IMG0001" renders an embed. -/
theorem imageLookup_normalization_witness :
    (mapGet [("img0001", ImageRecord.mk "img0001" "image/jpeg" "eHl6")]
        (jsToLower (stripHash "#IMG0001")) =
          some (ImageRecord.mk "img0001" "image/jpeg" "eHl6") →
      coverLookup [("img0001", ImageRecord.mk "img0001" "image/jpeg" "eHl6")]
        (jsToLower (stripHash "#IMG0001")) =
          some (ImageRecord.mk "img0001" "image/jpeg" "eHl6"))
    ∧ (mapGet [("img0001", ImageRecord.mk "img0001" "image/jpeg" "eHl6")] "img0001.jpg" = none →
        jsIncludes '.' "img0001.jpg" = true →
        mapGet [("img0001", ImageRecord.mk "img0001" "image/jpeg" "eHl6")]
          ((jsSplit '.' "img0001.jpg").headD "") =
            some (ImageRecord.mk "img0001" "image/jpeg" "eHl6") →
        coverLookup [("img0001", ImageRecord.mk "img0001" "image/jpeg" "eHl6")] "img0001.jpg" =
          some (ImageRecord.mk "img0001" "image/jpeg" "eHl6"))
    ∧ (∀ (attrs : List (String × String)) (c : XmlNodes),
        getAttribute "l:href" (XmlNode.elem "image" attrs c) = some "#IMG0001" →
        jsToLower (stripHash "#IMG0001") = "img0001" → "img0001" ≠ "" →
        mapGet [("img0001", ImageRecord.mk "img0001" "image/jpeg" "eHl6")] "img0001" =
          some (ImageRecord.mk "img0001" "image/jpeg" "eHl6") →
        jsTrim (ImageRecord.mk "img0001" "image/jpeg" "eHl6").data ≠ "" →
        (renderBodyItem [("img0001", ImageRecord.mk "img0001" "image/jpeg" "eHl6")] "f" "b"
          (XmlNode.elem "image" attrs c) []).1 =
          ["![[" ++ (saveImageToVault "f" "b"
            (ImageRecord.mk "img0001" "image/jpeg" "eHl6") []).1 ++ "]]"]) :=
  imageLookup_normalization [("img0001", ImageRecord.mk "img0001" "image/jpeg" "eHl6")]
    (ImageRecord.mk "img0001" "image/jpeg" "eHl6") "f" "b" [] "#IMG0001" "img0001.jpg" "img0001"

/-- C3 counterexample: with the registry entry keyed "img0001" present and
non-empty, a body image reference "img0001.jpg" is skipped — no embed is
emitted — even though the same reference as a cover reference would be
resolved; dot-suffix tolerance does not hold for section bodies. -/
theorem bodyImage_dot_suffix_refuted :
    mapGet [("img0001", ImageRecord.mk "img0001" "image/jpeg" "eHl6")] "img0001" =
      some (ImageRecord.mk "img0001" "image/jpeg" "eHl6")
    ∧ jsTrim (ImageRecord.mk "img0001" "image/jpeg" "eHl6").data ≠ ""
    ∧ (coverLookup [("img0001", ImageRecord.mk "img0001" "image/jpeg" "eHl6")]
        "img0001.jpg").isSome = true
    ∧ (renderBodyItem [("img0001", ImageRecord.mk "img0001" "image/jpeg" "eHl6")] "f" "b"
        (XmlNode.elem "image" [("l:href", "img0001.jpg")] .nil) []) = ([], []) := by
  decide

/-! ### C4: empty binary payloads -/

/-- C4 (amended): registry construction is total and retains a binary block
whose payload trims to the empty string; the body-image point of use rejects
such a record (no line, no vault change), but the cover point of use does
not — `addCover` emits the cover embed even for an empty payload. -/
theorem emptyPayload_points_of_use (doc : XmlNode) (b : XmlNode)
    (m : List (String × ImageRecord)) (rec : ImageRecord) (meta : BookMetaInfo)
    (fp bn : String) (v : List String) (raw k : String) :
    (b ∈ binariesOf doc → (mapGet (extractImages doc) (binaryRecord b).id).isSome = true)
    ∧ (∀ (attrs : List (String × String)) (c : XmlNodes),
        getAttribute "l:href" (XmlNode.elem "image" attrs c) = some raw →
        jsToLower (stripHash raw) = k → k ≠ "" →
        mapGet m k = some rec → jsTrim rec.data = "" →
        renderBodyItem m fp bn (XmlNode.elem "image" attrs c) v = ([], v))
    ∧ (meta.coverHref ≠ "" → coverLookup m meta.coverHref = some rec →
        (addCover meta m fp bn v).1 = ["![[" ++ (saveImageToVault fp bn rec v).1 ++ "]]"]) := by
  refine ⟨?_, ?_, ?_⟩
  · intro hmem
    rw [extractImages, mapGet_jsMapOfList]
    have hs : (((binariesOf doc).map (fun b => ((binaryRecord b).id, binaryRecord b))).reverse.find?
        (fun p => p.1 == (binaryRecord b).id)).isSome = true := by
      rw [List.find?_isSome]
      refine ⟨((binaryRecord b).id, binaryRecord b), ?_, by simp⟩
      rw [List.mem_reverse]
      exact List.mem_map_of_mem _ hmem
    cases hfind : (((binariesOf doc).map
        (fun b => ((binaryRecord b).id, binaryRecord b))).reverse.find?
        (fun p => p.1 == (binaryRecord b).id)) with
    | none => rw [hfind] at hs; simp at hs
    | some e => rfl
  · intro attrs c hattr hnorm hk hget hdata
    have hbdata : (jsTrim rec.data == "") = true := by simpa using hdata
    rw [renderBodyItem]
    have htag : (jsToLower (tagName (XmlNode.elem "image" attrs c)) == "image") = true := rfl
    simp only [htag, if_true, hattr, hnorm]
    have hkb : (k == "") = false := by simpa using hk
    simp only [hkb, Bool.false_eq_true, if_false, hget, hbdata, if_true]
  · intro hne hlook
    rw [addCover]
    rw [if_neg (by simpa using hne), hlook]

/-- C4 witness: a whitespace-only binary is retained in the registry, a body
reference to it is skipped with the vault untouched, yet `addCover` still
emits the cover embed for it. -/
theorem emptyPayload_points_of_use_witness :
    ((XmlNode.elem "binary" [("id", "c")] (.ofList [.text "  "]) ∈
        binariesOf (XmlNode.elem "FictionBook" []
          (.ofList [XmlNode.elem "binary" [("id", "c")] (.ofList [.text "  "])])) →
      (mapGet (extractImages (XmlNode.elem "FictionBook" []
          (.ofList [XmlNode.elem "binary" [("id", "c")] (.ofList [.text "  "])])))
        (binaryRecord (XmlNode.elem "binary" [("id", "c")]
          (.ofList [.text "  "]))).id).isSome = true)
    ∧ (∀ (attrs : List (String × String)) (c : XmlNodes),
        getAttribute "l:href" (XmlNode.elem "image" attrs c) = some "#C" →
        jsToLower (stripHash "#C") = "c" → "c" ≠ "" →
        mapGet [("c", ImageRecord.mk "c" "image/jpeg" "  ")] "c" =
          some (ImageRecord.mk "c" "image/jpeg" "  ") →
        jsTrim (ImageRecord.mk "c" "image/jpeg" "  ").data = "" →
        renderBodyItem [("c", ImageRecord.mk "c" "image/jpeg" "  ")] "f" "b"
          (XmlNode.elem "image" attrs c) [] = ([], []))
    ∧ ((BookMetaInfo.mk "" [] "c").coverHref ≠ "" →
        coverLookup [("c", ImageRecord.mk "c" "image/jpeg" "  ")]
          (BookMetaInfo.mk "" [] "c").coverHref =
            some (ImageRecord.mk "c" "image/jpeg" "  ") →
        (addCover (BookMetaInfo.mk "" [] "c") [("c", ImageRecord.mk "c" "image/jpeg" "  ")]
          "f" "b" []).1 =
          ["![[" ++ (saveImageToVault "f" "b" (ImageRecord.mk "c" "image/jpeg" "  ") []).1 ++ "]]"])) :=
  emptyPayload_points_of_use
    (XmlNode.elem "FictionBook" [] (.ofList [XmlNode.elem "binary" [("id", "c")] (.ofList [.text "  "])]))
    (XmlNode.elem "binary" [("id", "c")] (.ofList [.text "  "]))
    [("c", ImageRecord.mk "c" "image/jpeg" "  ")]
    (ImageRecord.mk "c" "image/jpeg" "  ")
    (BookMetaInfo.mk "" [] "c") "f" "b" [] "#C" "c"

/-- C4 counterexample: for a registry record whose payload trims empty, the
cover embed IS emitted — `addCover` performs no emptiness check — refuting
the claim that no point of use materializes such a record. -/
theorem emptyPayload_cover_emitted :
    jsTrim (ImageRecord.mk "c" "image/jpeg" "  ").data = ""
    ∧ (addCover (BookMetaInfo.mk "" [] "c") [("c", ImageRecord.mk "c" "image/jpeg" "  ")]
        "fb2-images" "book" []).1 = ["![[fb2-images/book/c.jpeg]]"] := by
  decide

/-! ### Decimal-representation lemmas -/

theorem digitVal_digitChar (n : Nat) (h : n < 10) : digitVal (Nat.digitChar n) = n := by
  interval_cases n <;> rfl

theorem toDigitsCore_eq_digitsRec (fuel : Nat) :
    ∀ (n : Nat) (ds : List Char), n < fuel →
      Nat.toDigitsCore 10 fuel n ds = digitsRec n ++ ds := by
  induction fuel with
  | zero => intro n ds h; omega
  | succ fuel ih =>
    intro n ds h
    rw [Nat.toDigitsCore]
    by_cases h10 : n / 10 = 0
    · have hn : n < 10 := by omega
      rw [if_pos h10, digitsRec, if_pos hn, Nat.mod_eq_of_lt hn]
      rfl
    · have hge : 10 ≤ n := by omega
      have hlt : n / 10 < fuel := by
        have := Nat.div_lt_self (by omega : 0 < n) (by omega : 1 < 10)
        omega
      rw [if_neg h10, ih (n / 10) _ hlt]
      have hrec : digitsRec n = digitsRec (n / 10) ++ [Nat.digitChar (n % 10)] := by
        rw [digitsRec, if_neg (by omega : ¬ n < 10)]
      rw [hrec, List.append_assoc]
      rfl

theorem digitsVal_digitsRec (n : Nat) : digitsVal (digitsRec n) = n := by
  induction n using Nat.strong_induction_on with
  | _ n ih =>
    by_cases h : n < 10
    · rw [digitsRec, if_pos h]
      show 0 * 10 + digitVal (Nat.digitChar n) = n
      rw [digitVal_digitChar n h]
      omega
    · rw [digitsRec, if_neg h, digitsVal, List.foldl_append]
      have h1 : n / 10 < n := Nat.div_lt_self (by omega) (by omega)
      have h2 := ih (n / 10) h1
      rw [digitsVal] at h2
      rw [h2]
      show (n / 10) * 10 + digitVal (Nat.digitChar (n % 10)) = n
      rw [digitVal_digitChar _ (Nat.mod_lt _ (by omega))]
      omega

/-- The decimal representation of a natural number determines it. -/
theorem natRepr_data_injective (m n : Nat)
    (h : (Nat.repr m).data = (Nat.repr n).data) : m = n := by
  have hm : (Nat.repr m).data = digitsRec m := by
    rw [Nat.repr, Nat.toDigits, toDigitsCore_eq_digitsRec (m + 1) m [] (by omega),
      List.append_nil]
    rfl
  have hn : (Nat.repr n).data = digitsRec n := by
    rw [Nat.repr, Nat.toDigits, toDigitsCore_eq_digitsRec (n + 1) n [] (by omega),
      List.append_nil]
    rfl
  rw [hm, hn] at h
  have h2 := congrArg digitsVal h
  rwa [digitsVal_digitsRec, digitsVal_digitsRec] at h2

/-- Cancelling a common left and right part around the numeric suffix of a
collision candidate determines the counter. -/
theorem mdSuffix_cancel (L R : List Char) (a b : Nat)
    (h : L ++ ((if a == 0 then "" else "_" ++ Nat.repr a).data ++ R) =
         L ++ ((if b == 0 then "" else "_" ++ Nat.repr b).data ++ R)) : a = b := by
  have h1 := List.append_cancel_left h
  have h2 := List.append_cancel_right h1
  by_cases ha : a = 0 <;> by_cases hb : b = 0
  · omega
  · rw [if_pos (by simpa using ha), if_neg (by simpa using hb)] at h2
    have : ("_" ++ Nat.repr b).data = '_' :: (Nat.repr b).data := by
      rw [String.data_append]
      rfl
    rw [this] at h2
    simp at h2
  · rw [if_neg (by simpa using ha), if_pos (by simpa using hb)] at h2
    have : ("_" ++ Nat.repr a).data = '_' :: (Nat.repr a).data := by
      rw [String.data_append]
      rfl
    rw [this] at h2
    simp at h2
  · rw [if_neg (by simpa using ha), if_neg (by simpa using hb)] at h2
    have ea : ("_" ++ Nat.repr a).data = '_' :: (Nat.repr a).data := by
      rw [String.data_append]
      rfl
    have eb : ("_" ++ Nat.repr b).data = '_' :: (Nat.repr b).data := by
      rw [String.data_append]
      rfl
    rw [ea, eb] at h2
    have h3 : (Nat.repr a).data = (Nat.repr b).data := by simpa using h2
    exact natRepr_data_injective a b h3

/-! ### Collision-avoidance loop lemmas -/

/-- With a free candidate in reach, the collision walk returns the first
candidate not in the vault, all earlier candidates being taken. -/
theorem firstFreeFrom_spec (vault : List String) (mk : Nat → String) :
    ∀ (fuel start : Nat),
      (∃ i, start ≤ i ∧ i < start + fuel ∧ mk i ∉ vault) →
      ∃ n, start ≤ n ∧ firstFreeFrom vault mk fuel start = mk n ∧ mk n ∉ vault ∧
        ∀ j, start ≤ j → j < n → mk j ∈ vault := by
  intro fuel
  induction fuel with
  | zero =>
    intro start hex
    obtain ⟨i, h1, h2, _⟩ := hex
    omega
  | succ fuel ih =>
    intro start hex
    rw [firstFreeFrom]
    by_cases hc : vault.contains (mk start) = true
    · rw [if_pos hc]
      have hmem : mk start ∈ vault := by simpa using hc
      obtain ⟨i, hi1, hi2, hi3⟩ := hex
      have hine : i ≠ start := fun he => hi3 (he ▸ hmem)
      obtain ⟨n, hn1, hn2, hn3, hn4⟩ := ih (start + 1) ⟨i, by omega, by omega, hi3⟩
      refine ⟨n, by omega, hn2, hn3, fun j hj1 hj2 => ?_⟩
      rcases Nat.eq_or_lt_of_le hj1 with he | hlt
      · rw [← he]
        exact hmem
      · exact hn4 j hlt hj2
    · rw [if_neg hc]
      have hnm : mk start ∉ vault := by simpa using hc
      exact ⟨start, Nat.le_refl _, rfl, hnm, fun j hj1 hj2 => absurd hj2 (by omega)⟩

/-- An injective candidate sequence always has a free candidate among the
first `vault.length + 1` (pigeonhole). -/
theorem exists_free_candidate (vault : List String) (mk : Nat → String)
    (hinj : ∀ a b, mk a = mk b → a = b) :
    ∃ i, i < vault.length + 1 ∧ mk i ∉ vault := by
  by_contra hcon
  push_neg at hcon
  have hsub : ((List.range (vault.length + 1)).map mk) ⊆ vault := by
    intro x hx
    rcases List.mem_map.mp hx with ⟨i, hi, hix⟩
    rw [← hix]
    exact hcon i (List.mem_range.mp hi)
  have hnd : ((List.range (vault.length + 1)).map mk).Nodup :=
    (List.nodup_range _).map (fun a b h => hinj a b h)
  have hle := (List.subperm_of_subset hnd hsub).length_le
  simp at hle

/-- Full specification of `firstFree` for an injective candidate sequence:
the result is fresh and is the first candidate in the incrementing-suffix
sequence that is fresh. -/
theorem firstFree_spec (vault : List String) (mk : Nat → String)
    (hinj : ∀ a b, mk a = mk b → a = b) :
    firstFree vault mk ∉ vault ∧
    ∃ n, firstFree vault mk = mk n ∧ ∀ j, j < n → mk j ∈ vault := by
  obtain ⟨i, hi1, hi2⟩ := exists_free_candidate vault mk hinj
  obtain ⟨n, _, h2, h3, h4⟩ :=
    firstFreeFrom_spec vault mk (vault.length + 1) 0 ⟨i, by omega, by omega, hi2⟩
  rw [firstFree]
  refine ⟨by rw [h2]; exact h3, n, h2, fun j hj => h4 j (by omega) hj⟩

/-- The markdown candidate sequence is injective in the counter. -/
theorem mdCandidate_injective (folder base : String) :
    ∀ a b, mdCandidate folder base a = mdCandidate folder base b → a = b := by
  intro a b h
  rw [mdCandidate, mdCandidate] at h
  have hd := congrArg String.data h
  simp only [String.data_append, List.append_assoc] at hd
  exact mdSuffix_cancel _ _ a b (List.append_cancel_left hd)

/-- The image candidate sequence is injective in the counter. -/
theorem imageCandidate_injective (folderPath base ext : String) :
    ∀ a b, imageCandidate folderPath base ext a = imageCandidate folderPath base ext b →
      a = b := by
  intro a b h
  rw [imageCandidate, imageCandidate] at h
  have hd := congrArg String.data h
  simp only [String.data_append, List.append_assoc] at hd
  have h1 := List.append_cancel_left hd
  have h2 := List.append_cancel_left h1
  have h3 := List.append_cancel_left h2
  exact mdSuffix_cancel [] (['.'] ++ ext.data) a b (by simpa using h3)

/-! ### C7: output file naming -/

/-- C7: the output base name joins author(s) and title and strips
path-illegal characters, falling back to the (equally sanitized) source base
name when both title and authors are absent; and the final output path is
collision-free, chosen by the same incrementing numeric-suffix rule as image
materialization — the first fresh candidate of the `_1, _2, ...` sequence,
for the markdown path and for the image path alike. -/
theorem outputNaming_spec (meta : BookMetaInfo) (fb folder fp bn : String)
    (rec : ImageRecord) (vault : List String) (a1 a2 : String) :
    ((meta.title = "" → meta.authors = [] →
        getFormattedMDFileName meta fb =
          String.mk (fb.data.filter (fun c => !illegalPathChar c)))
    ∧ (∀ c, c ∈ (getFormattedMDFileName meta fb).data → illegalPathChar c = false)
    ∧ (meta.authors = [a1] → a1 ≠ "" →
        getFormattedMDFileName meta fb =
          String.mk ((a1 ++ " – " ++ meta.title).data.filter (fun c => !illegalPathChar c)))
    ∧ (meta.authors = [a1, a2] →
        getFormattedMDFileName meta fb =
          String.mk ((a1 ++ ", " ++ a2 ++ " – " ++ meta.title).data.filter
            (fun c => !illegalPathChar c)))
    ∧ ((getAvailableMdPath folder (getFormattedMDFileName meta fb) vault).1 ∉
          (getAvailableMdPath folder (getFormattedMDFileName meta fb) vault).2
        ∧ ∃ n, (getAvailableMdPath folder (getFormattedMDFileName meta fb) vault).1 =
            mdCandidate (jsTrim folder) (getFormattedMDFileName meta fb) n
          ∧ ∀ j, j < n → mdCandidate (jsTrim folder) (getFormattedMDFileName meta fb) j ∈
              (getAvailableMdPath folder (getFormattedMDFileName meta fb) vault).2)
    ∧ ((saveImageToVault fp bn rec vault).1 ∉ ensureFolderExists vault (fp ++ "/" ++ bn)
        ∧ ∃ n, (saveImageToVault fp bn rec vault).1 =
            imageCandidate (fp ++ "/" ++ bn) (imageBaseFileName rec.id)
              (((jsSplit '/' rec.contentType)[1]?).getD "jpg") n
          ∧ ∀ j, j < n →
              imageCandidate (fp ++ "/" ++ bn) (imageBaseFileName rec.id)
                (((jsSplit '/' rec.contentType)[1]?).getD "jpg") j ∈
                ensureFolderExists vault (fp ++ "/" ++ bn))) := by
  refine ⟨?_, ?_, ?_, ?_, ?_, ?_⟩
  · intro ht ha
    rw [getFormattedMDFileName]
    simp only [ht, ha]
    rfl
  · intro c hc
    rw [getFormattedMDFileName] at hc
    have hc2 := List.of_mem_filter (p := fun c => !illegalPathChar c) hc
    simpa using hc2
  · intro ha h1
    have hneb : (a1 != "") = true := by simpa using h1
    rw [getFormattedMDFileName]
    simp [ha, hneb]
  · intro ha
    have hic : String.intercalate ", " [a1, a2] = a1 ++ ", " ++ a2 := rfl
    have hne : (a1 ++ ", " ++ a2) ≠ "" := by
      intro hcon
      have hd := congrArg String.data hcon
      simp [String.data_append] at hd
    have hneb : ((a1 ++ ", " ++ a2) != "") = true := by simpa using hne
    rw [getFormattedMDFileName]
    simp [ha, hic, hneb]
  · have hspec := firstFree_spec
      (if jsTrim folder != "" then ensureFolderExists vault (jsTrim folder) else vault)
      (mdCandidate (jsTrim folder) (getFormattedMDFileName meta fb))
      (mdCandidate_injective _ _)
    rw [getAvailableMdPath]
    exact hspec
  · have hspec := firstFree_spec (ensureFolderExists vault (fp ++ "/" ++ bn))
      (imageCandidate (fp ++ "/" ++ bn) (imageBaseFileName rec.id)
        (((jsSplit '/' rec.contentType)[1]?).getD "jpg"))
      (imageCandidate_injective _ _ _)
    rw [saveImageToVault]
    exact hspec

/-- C7 witness: for a two-author book the output base name joins both author
names and the title (sanitized), and the resulting output path is not among
the existing paths. -/
theorem outputNaming_spec_witness :
    getFormattedMDFileName (BookMetaInfo.mk "Book" ["Anna Karenina", "Leo Tolstoy"] "")
        "src" =
      String.mk (("Anna Karenina" ++ ", " ++ "Leo Tolstoy" ++ " – " ++ "Book").data.filter
        (fun c => !illegalPathChar c))
    ∧ (getAvailableMdPath "out"
        (getFormattedMDFileName
          (BookMetaInfo.mk "Book" ["Anna Karenina", "Leo Tolstoy"] "") "src") []).1 ∉
      (getAvailableMdPath "out"
        (getFormattedMDFileName
          (BookMetaInfo.mk "Book" ["Anna Karenina", "Leo Tolstoy"] "") "src") []).2 := by
  have h := outputNaming_spec (BookMetaInfo.mk "Book" ["Anna Karenina", "Leo Tolstoy"] "")
    "src" "out" "f" "b" (ImageRecord.mk "i" "image/png" "x") [] "Anna Karenina" "Leo Tolstoy"
  exact ⟨h.2.2.2.1 rfl, h.2.2.2.2.1.1⟩

/-! ### C8: fatal errors produce no output -/

/-- C8: on a parser error, or on a document with no main body, `convertFB2`
reports a user-visible notice, creates no markdown file, and leaves the
vault untouched (no image is materialized). -/
theorem fatalError_no_output (doc : XmlNode) (basename : String)
    (settings : PluginSettings) (vault : List String) :
    (hasParserError doc = true →
      convertFB2 doc basename settings vault =
        { notices := ["Error parsing FB2: Error: Invalid XML format"],
          vault := vault, created := none })
    ∧ (hasParserError doc = false → (mainBodiesOf doc).isEmpty = true →
      convertFB2 doc basename settings vault =
        { notices := ["No main <body> found in FB2."],
          vault := vault, created := none }) := by
  constructor
  · intro h
    rw [convertFB2, if_pos h]
  · intro h1 h2
    rw [convertFB2, if_neg (by simp [h1]), if_pos h2]

/-- C8 witness: a parser-error document and a document without any body both
abort with one notice, an unchanged vault and no created file. -/
theorem fatalError_no_output_witness :
    convertFB2 (XmlNode.elem "parsererror" [] .nil) "bk"
        (PluginSettings.mk "imgs" "") ["keep"] =
      { notices := ["Error parsing FB2: Error: Invalid XML format"],
        vault := ["keep"], created := none }
    ∧ convertFB2 (XmlNode.elem "FictionBook" [] .nil) "bk"
        (PluginSettings.mk "imgs" "") ["keep"] =
      { notices := ["No main <body> found in FB2."],
        vault := ["keep"], created := none } :=
  ⟨(fatalError_no_output (XmlNode.elem "parsererror" [] .nil) "bk"
      (PluginSettings.mk "imgs" "") ["keep"]).1 (by decide),
   (fatalError_no_output (XmlNode.elem "FictionBook" [] .nil) "bk"
      (PluginSettings.mk "imgs" "") ["keep"]).2 (by decide) (by decide)⟩

/-! ### C9: the trailing footnotes block -/

/-- C9: the markdown lines of a conversion end with the footnotes block
exactly when the footnote table is non-empty: an empty table leaves the
pre-footnote lines unchanged, a non-empty one appends the labeled heading
and one reference-definition line per entry in table iteration order. -/
theorem footnotes_block_iff (doc : XmlNode) (basename : String)
    (settings : PluginSettings) (vault : List String) :
    (parseFootnotes doc = [] →
      (convertMdLines doc basename settings vault).1 =
        (preFootnoteMdLines doc basename settings vault).1)
    ∧ (parseFootnotes doc ≠ [] →
      (convertMdLines doc basename settings vault).1 =
        (preFootnoteMdLines doc basename settings vault).1 ++
          ("\n## Footnotes\n" :: (parseFootnotes doc).map
            (fun e => "[^" ++ e.1 ++ "]: " ++ e.2))) := by
  constructor
  · intro h
    show (preFootnoteMdLines doc basename settings vault).1 ++
      renderFootnotes (parseFootnotes doc) = _
    rw [h]
    simp [renderFootnotes]
  · intro h
    show (preFootnoteMdLines doc basename settings vault).1 ++
      renderFootnotes (parseFootnotes doc) = _
    rw [renderFootnotes, if_pos (List.length_pos.mpr h)]

/-- C9 witness: a document with one footnote appends exactly its heading and
reference-definition line; a document without notes appends nothing. -/
theorem footnotes_block_iff_witness :
    (convertMdLines nestedNoteDoc "bk" (PluginSettings.mk "imgs" "") []).1 =
      (preFootnoteMdLines nestedNoteDoc "bk" (PluginSettings.mk "imgs" "") []).1 ++
        ("\n## Footnotes\n" :: (parseFootnotes nestedNoteDoc).map
          (fun e => "[^" ++ e.1 ++ "]: " ++ e.2))
    ∧ (convertMdLines (XmlNode.elem "FictionBook" [] .nil) "bk"
        (PluginSettings.mk "imgs" "") []).1 =
      (preFootnoteMdLines (XmlNode.elem "FictionBook" [] .nil) "bk"
        (PluginSettings.mk "imgs" "") []).1 :=
  ⟨(footnotes_block_iff nestedNoteDoc "bk" (PluginSettings.mk "imgs" "") []).2 (by decide),
   (footnotes_block_iff (XmlNode.elem "FictionBook" [] .nil) "bk"
      (PluginSettings.mk "imgs" "") []).1 (by decide)⟩

end FB2
